import Mathlib

/-!
Shallow embedding of the oxc name-preservation analyzer
(`crates/oxc_mangler/src/keep_names.rs`) and the semantic node store
(`crates/oxc_semantic/src/node.rs`), with theorems settling the frozen
claims about them.

Machine integers (`SymbolId`, `ReferenceId`, `AstNodeId`, scope/cfg ids,
flag bitsets) are modelled as `Nat`; the ids are dense indices so no
overflow behaviour is relevant.  Arena vectors (`IndexVec`) are modelled
as Lean lists indexed by position.
-/

namespace Oxc

/-! ## Expressions

Only the classification read by the analyzer is needed: whether an
expression is an anonymous function definition.  The payload of every
other expression kind is irrelevant to the analyzer, so they collapse
into `otherExpression`. -/

/-- Expression shapes distinguished by the analyzer: function expressions
and class expressions carry their optional own name (modelled as the
symbol id their identifier resolves to); arrow functions never have one;
every other expression kind is opaque to the analyzer. -/
inductive Expr where
  | functionExpression (ownName : Option Nat)
  | arrowFunctionExpression
  | classExpression (ownName : Option Nat)
  | otherExpression
deriving DecidableEq, Repr

/-- Modelled from the spec: `Expression::is_anonymous_function_definition`
lives in the `oxc_ast` crate, which is not under `src/`.  Per the spec's
"anonymous-definable expression" classification it is true only for
function expressions without an own identifier, arrow functions, and
class expressions without an own identifier, and false for every other
expression kind. -/
def Expr.is_anonymous_function_definition : Expr → Bool
  | .functionExpression none => true
  | .arrowFunctionExpression => true
  | .classExpression none => true
  | _ => false

/-! ## Assignment targets -/

/-- `AssignmentOperator` of `oxc_ast` (all sixteen variants).  The
analyzer never reads the operator; it is carried so that statements about
operator-(in)sensitivity can be made. -/
inductive AssignOp where
  | assign
  | addition
  | subtraction
  | multiplication
  | division
  | remainder
  | shiftLeft
  | shiftRight
  | shiftRightZeroFill
  | bitwiseOR
  | bitwiseXOR
  | bitwiseAnd
  | logicalAnd
  | logicalOr
  | logicalNullish
  | exponential
deriving DecidableEq, Repr

/-- `AssignmentTarget`: the analyzer only distinguishes
`AssignmentTargetIdentifier` (carrying the reference id of its
`IdentifierReference`) from every other target shape. -/
inductive AssignmentTarget where
  | assignmentTargetIdentifier (reference_id : Nat)
  | otherTarget
deriving DecidableEq, Repr

/-- `AssignmentTargetProperty`: the analyzer only distinguishes the
shorthand `AssignmentTargetPropertyIdentifier` (binding reference id plus
optional default initializer) from `AssignmentTargetPropertyProperty`. -/
inductive AssignmentTargetProperty where
  | assignmentTargetPropertyIdentifier (binding_reference_id : Nat) (init : Option Expr)
  | assignmentTargetPropertyProperty
deriving DecidableEq, Repr

/-! ## Binding patterns -/

/-- `BindingPatternKind` of `oxc_ast`.  Object patterns keep the list of
their properties' value pattern kinds plus the rest element's pattern
kind (the source search iterates `properties` only and never descends
into `rest`); array patterns keep their optional elements (elision holes
are `none`) plus the rest element, likewise never searched. -/
inductive BindingPatternKind where
  | bindingIdentifier (symbol_id : Nat)
  | objectPattern (properties : List BindingPatternKind) (rest : Option BindingPatternKind)
  | arrayPattern (elements : List (Option BindingPatternKind)) (rest : Option BindingPatternKind)
  | assignmentPattern (left : BindingPatternKind) (right : Expr)
deriving Repr

/-! ## Node kinds

`AstKind` is a closed tagged union over every syntax construct.  The
analyzer matches only the tags below; every unmatched tag behaves like
`other` (all its match arms are `_ => false` fall-throughs). -/

/-- The node kinds inspected by `keep_names.rs`, with exactly the payload
fields the analyzer reads.  `function` and `classNode` carry the symbol
id their optional own identifier resolves to (`id.symbol_id()`). -/
inductive AstKind where
  | function (id : Option Nat)
  | classNode (id : Option Nat)
  | variableDeclarator (id_kind : BindingPatternKind) (init : Option Expr)
  | simpleAssignmentTarget
  | assignmentTarget
  | assignmentExpression (op : AssignOp) (left : AssignmentTarget) (right : Expr)
  | assignmentTargetWithDefault (binding : AssignmentTarget) (init : Expr)
  | objectAssignmentTarget (properties : List AssignmentTargetProperty)
  | identifierReference (reference_id : Nat)
  | other
deriving Repr

instance : Inhabited AstKind := ⟨.other⟩

/-! ## The node store (`crates/oxc_semantic/src/node.rs`) -/

/-- `AstNode`: id, kind, associated scope id, associated cfg block id and
flag bitset, generic over the kind type (the store never inspects kinds). -/
structure AstNode (K : Type) where
  id : Nat
  kind : K
  scope_id : Nat
  cfg_id : Nat
  flags : Nat
deriving Repr

instance [Inhabited K] : Inhabited (AstNode K) := ⟨⟨0, default, 0, 0, 0⟩⟩

/-- `AstNodes`: the arena of nodes plus the parallel array of parent ids,
both indexed by the same dense id space, and the optional root id. -/
structure AstNodes (K : Type) where
  root : Option Nat
  nodes : List (AstNode K)
  parent_ids : List (Option Nat)
deriving Repr

/-- `AstNodes::default()`: the empty store. -/
def AstNodes.new : AstNodes K := { root := none, nodes := [], parent_ids := [] }

/-- `AstNodes::parent_id`: reads `parent_ids[id]`.  The source indexes
unconditionally (an unassigned id is a contract breach upstream); the
model totalizes an out-of-range read to `none`. -/
def AstNodes.parent_id (st : AstNodes K) (ast_node_id : Nat) : Option Nat :=
  st.parent_ids.getD ast_node_id none

/-- `AstNodes::kind`: reads `nodes[id].kind`.  Out-of-range reads (a
contract breach in the source) totalize to the default kind. -/
def AstNodes.kind [Inhabited K] (st : AstNodes K) (ast_node_id : Nat) : K :=
  (st.nodes.getD ast_node_id default).kind

/-- Fuel-bounded unfolding of
`std::iter::successors(Some(ast_node_id), |id| parent_ids[*id])`:
emit the current id, stop when its parent entry is `none`, otherwise
continue at the parent.  The source iterator is lazy and unbounded; in a
store whose parent links strictly decrease the chain from any id has at
most `parent_ids.length + 1` distinct entries, so the fuel used by
`AstNodes.ancestors` never truncates it. -/
def ancestorsAux (parent_ids : List (Option Nat)) : Nat → Nat → List Nat
  | 0, _ => []
  | fuel + 1, ast_node_id =>
    ast_node_id ::
      (match parent_ids.getD ast_node_id none with
       | none => []
       | some p => ancestorsAux parent_ids fuel p)

/-- `AstNodes::ancestors`: note the source seeds the successor iterator
with `Some(ast_node_id)` itself, so the produced sequence begins with the
queried id, not with its parent. -/
def AstNodes.ancestors (st : AstNodes K) (ast_node_id : Nat) : List Nat :=
  ancestorsAux st.parent_ids (st.parent_ids.length + 1) ast_node_id

/-- Modelled from the spec: `AstNodes::ancestor_kinds` is called by the
analyzer but is not under `src/`; per the spec's Node Store contract it
is the `ancestors` id chase projected through the `kind_of` O(1)
projection, which also matches the caller's expectation (its
`debug_assert` that the element after the skipped first one is the
`AssignmentTarget` wrapper). -/
def AstNodes.ancestor_kinds [Inhabited K] (st : AstNodes K) (ast_node_id : Nat) : List K :=
  (st.ancestors ast_node_id).map st.kind

/-- `AstNodes::add_node`: pushes `Some(parent)` onto `parent_ids` (the
returned id is the pre-push length), then pushes the node built from that
id. -/
def AstNodes.add_node (st : AstNodes K) (kind : K) (scope_id : Nat) (parent_node_id : Nat)
    (cfg_id : Nat) (flags : Nat) : Nat × AstNodes K :=
  let ast_node_id := st.parent_ids.length
  let node : AstNode K := ⟨ast_node_id, kind, scope_id, cfg_id, flags⟩
  (ast_node_id,
    { st with parent_ids := st.parent_ids ++ [some parent_node_id], nodes := st.nodes ++ [node] })

/-- `AstNodes::add_program_node`: pushes `None` onto `parent_ids`,
unconditionally overwrites `root` with the new id, then pushes the node. -/
def AstNodes.add_program_node (st : AstNodes K) (kind : K) (scope_id : Nat)
    (cfg_id : Nat) (flags : Nat) : Nat × AstNodes K :=
  let ast_node_id := st.parent_ids.length
  let node : AstNode K := ⟨ast_node_id, kind, scope_id, cfg_id, flags⟩
  (ast_node_id,
    { root := some ast_node_id,
      parent_ids := st.parent_ids ++ [none],
      nodes := st.nodes ++ [node] })

/-! ## The scope/symbol service interface -/

/-- Modelled from the spec: the `Scoping` service of `oxc_semantic` is
not under `src/`; per the spec it is an external collaborator consumed
read-only through exactly this interface — enumerate all declared symbol
ids, map a symbol to its declaration node id, map a symbol to its
resolved reference ids, and map a reference to the node id where the use
occurs. -/
structure Scoping where
  symbol_ids : List Nat
  symbol_declaration : Nat → Nat
  resolved_reference_ids : Nat → List Nat
  reference_node_id : Nat → Nat

/-! ## The analyzer (`crates/oxc_mangler/src/keep_names.rs`) -/

/-- `NameSymbolCollector::is_expression_whose_name_needs_to_be_kept`:
delegates to `Expression::is_anonymous_function_definition`. -/
def is_expression_whose_name_needs_to_be_kept (expr : Expr) : Bool :=
  expr.is_anonymous_function_definition

/-- `NameSymbolCollector::is_binding_id_of_specific_symbol`: the pattern
kind is a `BindingIdentifier` resolving to the given symbol. -/
def is_binding_id_of_specific_symbol (pattern_kind : BindingPatternKind)
    (symbol_id : Nat) : Bool :=
  match pattern_kind with
  | .bindingIdentifier id => id == symbol_id
  | _ => false

/-- `NameSymbolCollector::is_assignment_target_id_of_specific_reference`:
the target is an `AssignmentTargetIdentifier` carrying the given
reference id. -/
def is_assignment_target_id_of_specific_reference (target_kind : AssignmentTarget)
    (reference_id : Nat) : Bool :=
  match target_kind with
  | .assignmentTargetIdentifier id => id == reference_id
  | _ => false

mutual

/-- `NameSymbolCollector::find_assign_binding_pattern_kind_of_specific_symbol`:
recursively searches a binding pattern for the `AssignmentPattern`
(default-value sub-pattern) whose left-hand side is the identifier
binding the given symbol, returning the first one found (as its left
kind and right default expression).  Object patterns search the
properties' value kinds, array patterns search the non-elided elements;
neither descends into the rest element, matching the source loops. -/
def find_assign_binding_pattern_kind_of_specific_symbol
    (kind : BindingPatternKind) (symbol_id : Nat) : Option (BindingPatternKind × Expr) :=
  match kind with
  | .bindingIdentifier _ => none
  | .objectPattern properties _ => findAssignInProperties properties symbol_id
  | .arrayPattern elements _ => findAssignInElements elements symbol_id
  | .assignmentPattern left right =>
    if is_binding_id_of_specific_symbol left symbol_id then
      some (left, right)
    else
      find_assign_binding_pattern_kind_of_specific_symbol left symbol_id

/-- The `for property in &object_pattern.properties` loop of the source
search: return the first hit among the properties' value kinds. -/
def findAssignInProperties (properties : List BindingPatternKind)
    (symbol_id : Nat) : Option (BindingPatternKind × Expr) :=
  match properties with
  | [] => none
  | p :: rest =>
    match find_assign_binding_pattern_kind_of_specific_symbol p symbol_id with
    | some value => some value
    | none => findAssignInProperties rest symbol_id

/-- The `for element in &array_pattern.elements` loop of the source
search: skip elision holes, return the first hit among the elements. -/
def findAssignInElements (elements : List (Option BindingPatternKind))
    (symbol_id : Nat) : Option (BindingPatternKind × Expr) :=
  match elements with
  | [] => none
  | none :: rest => findAssignInElements rest symbol_id
  | some binding :: rest =>
    match find_assign_binding_pattern_kind_of_specific_symbol binding symbol_id with
    | some value => some value
    | none => findAssignInElements rest symbol_id

end

/-- `NameSymbolCollector::is_name_set_declare_node`: classifies the
declaration node of a symbol (only the node's kind is read). -/
def is_name_set_declare_node (node_kind : AstKind) (symbol_id : Nat) : Bool :=
  match node_kind with
  | .function id => id.elim false (· == symbol_id)
  | .classNode id => id.elim false (· == symbol_id)
  | .variableDeclarator id_kind init =>
    -- the source falls through to the pattern search unless the binding
    -- is the matching plain identifier, which returns early
    let patternSearch :=
      match find_assign_binding_pattern_kind_of_specific_symbol id_kind symbol_id with
      | some assign_pattern => is_expression_whose_name_needs_to_be_kept assign_pattern.2
      | none => false
    match id_kind with
    | .bindingIdentifier id =>
      if id == symbol_id then
        match init with
        | some e => is_expression_whose_name_needs_to_be_kept e
        | none => false
      else patternSearch
    | _ => patternSearch
  | _ => false

/-- `NameSymbolCollector::is_name_set_reference_node`: classifies one
use-site of a symbol by the shape of its parent and the two ancestor
kinds above the parent.  The source `debug_assert`s that the first of
those two kinds is the `AssignmentTarget` wrapper but does not branch on
it in release builds, so the model binds and ignores it. -/
def is_name_set_reference_node (st : AstNodes AstKind) (node_id : Nat)
    (reference_id : Nat) : Bool :=
  match st.parent_id node_id with
  | none => false
  | some parent_node_id =>
    match st.kind parent_node_id with
    | .simpleAssignmentTarget =>
      match ((st.ancestor_kinds parent_node_id).drop 1).take 2 with
      | [_grand_parent_node_kind, grand_grand_parent_node_kind] =>
        match grand_grand_parent_node_kind with
        | .assignmentExpression _op left right =>
          is_assignment_target_id_of_specific_reference left reference_id
            && is_expression_whose_name_needs_to_be_kept right
        | .assignmentTargetWithDefault binding init =>
          is_assignment_target_id_of_specific_reference binding reference_id
            && is_expression_whose_name_needs_to_be_kept init
        | _ => false
      | _ => false
    | .objectAssignmentTarget properties =>
      properties.any fun property =>
        match property with
        | .assignmentTargetPropertyIdentifier binding_reference_id init =>
          if binding_reference_id == reference_id then
            match init with
            | some e => is_expression_whose_name_needs_to_be_kept e
            | none => false
          else false
        | _ => false
    | _ => false

/-- `NameSymbolCollector::has_name_set_reference_node`: some resolved
reference of the symbol sits at a name-setting use site. -/
def has_name_set_reference_node (scoping : Scoping) (st : AstNodes AstKind)
    (symbol_id : Nat) : Bool :=
  (scoping.resolved_reference_ids symbol_id).any fun reference_id =>
    is_name_set_reference_node st (scoping.reference_node_id reference_id) reference_id

/-- `collect_name_symbols` / `NameSymbolCollector::collect`: every
enumerated symbol whose declaration node or some resolved reference is a
name-setting site.  The `FxHashSet` result is modelled as the filtered
list; membership is the only observable property. -/
def collect_name_symbols (scoping : Scoping) (st : AstNodes AstKind) : List Nat :=
  scoping.symbol_ids.filter fun symbol_id =>
    is_name_set_declare_node (st.kind (scoping.symbol_declaration symbol_id)) symbol_id
      || has_name_set_reference_node scoping st symbol_id

/-! ## Shape classifiers used to state totality of the analyzer -/

/-- The declaration node kinds recognized by `is_name_set_declare_node`
(all other kinds hit its `_ => false` fall-through). -/
def is_declare_shape : AstKind → Bool
  | .function _ => true
  | .classNode _ => true
  | .variableDeclarator _ _ => true
  | _ => false

/-- The reference parent kinds recognized by `is_name_set_reference_node`
(all other kinds hit its `_ => false` fall-through). -/
def is_reference_parent_shape : AstKind → Bool
  | .simpleAssignmentTarget => true
  | .objectAssignmentTarget _ => true
  | _ => false

/-- The grand-grandparent kinds recognized inside the
`SimpleAssignmentTarget` arm of `is_name_set_reference_node` (any other
kind there hits the `_ => false` fall-through). -/
def is_assignment_container_shape : AstKind → Bool
  | .assignmentExpression _ _ _ => true
  | .assignmentTargetWithDefault _ _ => true
  | _ => false

/-- A destructuring binding pattern: an object or array pattern (the only
pattern kinds a declarator can carry besides a plain identifier). -/
def isDestructuringPatternKind : BindingPatternKind → Bool
  | .objectPattern _ _ => true
  | .arrayPattern _ _ => true
  | _ => false

/-! ## Insertion sequences for the store invariant -/

/-- One insertion call on the store: `add_node` (with an explicit parent)
or `add_program_node`. -/
inductive Op (K : Type) where
  | node (kind : K) (scope_id : Nat) (parent_node_id : Nat) (cfg_id : Nat) (flags : Nat)
  | program (kind : K) (scope_id : Nat) (cfg_id : Nat) (flags : Nat)

/-- Whether the call is `add_program_node`. -/
def Op.isProgram : Op K → Bool
  | .program _ _ _ _ => true
  | _ => false

/-- Perform one insertion call (dropping the returned id). -/
def applyOp (st : AstNodes K) : Op K → AstNodes K
  | .node k s p c f => (st.add_node k s p c f).2
  | .program k s c f => (st.add_program_node k s c f).2

/-- Perform a sequence of insertion calls in order. -/
def runOps (st : AstNodes K) : List (Op K) → AstNodes K
  | [] => st
  | op :: ops => runOps (applyOp st op) ops

/-- Caller discipline for an insertion sequence starting from a store
holding `n` nodes: every parent id passed to `add_node` was previously
assigned (is below the current node count). -/
def opsWF : List (Op K) → Nat → Bool
  | [], _ => true
  | .node _ _ p _ _ :: ops, n => decide (p < n) && opsWF ops (n + 1)
  | .program _ _ _ _ :: ops, n => opsWF ops (n + 1)

/-- The reflexive-transitive parent-link chase over a parent-id array:
`ParentPath pids i r` holds when following parent links from `i` passes
through `r`. -/
inductive ParentPath (parent_ids : List (Option Nat)) : Nat → Nat → Prop where
  | refl (i : Nat) : ParentPath parent_ids i i
  | step {i p r : Nat} : parent_ids.getD i none = some p →
      ParentPath parent_ids p r → ParentPath parent_ids i r

/-- Store well-formedness: the node and parent arrays agree in length,
node ids are the dense insertion positions, and every parent link points
strictly below its node (so parent chains descend and terminate). -/
structure StoreInv (st : AstNodes K) : Prop where
  len_eq : st.nodes.length = st.parent_ids.length
  ids_dense : ∀ (i : Nat) (n : AstNode K), st.nodes[i]? = some n → n.id = i
  parents_lt : ∀ i p, st.parent_ids.getD i none = some p → p < i

/-! ## Concrete stores for witnesses and counterexamples -/

/-- Store for `function foo() {}`: node 1 is the function declaration
whose identifier resolves to symbol 7. -/
def fnDeclStore : AstNodes AstKind :=
  { root := some 0,
    nodes := [⟨0, .other, 0, 0, 0⟩, ⟨1, .function (some 7), 0, 0, 0⟩],
    parent_ids := [none, some 0] }

/-- Scoping for `fnDeclStore`: one symbol, 7, declared at node 1, with no
resolved references. -/
def fnDeclScoping : Scoping :=
  { symbol_ids := [7],
    symbol_declaration := fun _ => 1,
    resolved_reference_ids := fun _ => [],
    reference_node_id := fun _ => 0 }

/-- Store for `foo = function () {}`: the reference (node 4, reference
id 0) sits under the `SimpleAssignmentTarget` wrapper (node 3), the
`AssignmentTarget` wrapper (node 2) and the plain `=` assignment
expression (node 1) whose right side is an anonymous function. -/
def plainAssignStore : AstNodes AstKind :=
  { root := some 0,
    nodes :=
      [ ⟨0, .other, 0, 0, 0⟩,
        ⟨1, .assignmentExpression .assign (.assignmentTargetIdentifier 0)
            (.functionExpression none), 0, 0, 0⟩,
        ⟨2, .assignmentTarget, 0, 0, 0⟩,
        ⟨3, .simpleAssignmentTarget, 0, 0, 0⟩,
        ⟨4, .identifierReference 0, 0, 0, 0⟩ ],
    parent_ids := [none, some 0, some 1, some 2, some 3] }

/-- Store for `foo += function () {}`: identical to `plainAssignStore`
except that the assignment operator is `+=` (`AssignOp.addition`), which
is not one of `=`, `||=`, `&&=`, `??=`. -/
def plusAssignStore : AstNodes AstKind :=
  { root := some 0,
    nodes :=
      [ ⟨0, .other, 0, 0, 0⟩,
        ⟨1, .assignmentExpression .addition (.assignmentTargetIdentifier 0)
            (.functionExpression none), 0, 0, 0⟩,
        ⟨2, .assignmentTarget, 0, 0, 0⟩,
        ⟨3, .simpleAssignmentTarget, 0, 0, 0⟩,
        ⟨4, .identifierReference 0, 0, 0, 0⟩ ],
    parent_ids := [none, some 0, some 1, some 2, some 3] }

/-- A well-formed two-node store: node 0 is the root, node 1 its child. -/
def twoNodeStore : AstNodes AstKind :=
  { root := some 0,
    nodes := [⟨0, .other, 0, 0, 0⟩, ⟨1, .other, 0, 0, 0⟩],
    parent_ids := [none, some 0] }

/-- Store for `[foo = class {}] = []`: the reference (node 4, reference
id 1) sits under the wrappers below an `AssignmentTargetWithDefault`
(node 1) whose default is an anonymous class expression. -/
def defaultTargetStore : AstNodes AstKind :=
  { root := some 0,
    nodes :=
      [ ⟨0, .other, 0, 0, 0⟩,
        ⟨1, .assignmentTargetWithDefault (.assignmentTargetIdentifier 1)
            (.classExpression none), 0, 0, 0⟩,
        ⟨2, .assignmentTarget, 0, 0, 0⟩,
        ⟨3, .simpleAssignmentTarget, 0, 0, 0⟩,
        ⟨4, .identifierReference 1, 0, 0, 0⟩ ],
    parent_ids := [none, some 0, some 1, some 2, some 3] }

/-- Store for `({ foo = function () {} } = {})`: the reference (node 2,
reference id 2) is the direct child of an `ObjectAssignmentTarget`
(node 1) holding a shorthand property with an anonymous default. -/
def objTargetStore : AstNodes AstKind :=
  { root := some 0,
    nodes :=
      [ ⟨0, .other, 0, 0, 0⟩,
        ⟨1, .objectAssignmentTarget
            [ .assignmentTargetPropertyProperty,
              .assignmentTargetPropertyIdentifier 2 (some (.functionExpression none)) ],
            0, 0, 0⟩,
        ⟨2, .identifierReference 2, 0, 0, 0⟩ ],
    parent_ids := [none, some 0, some 1] }

/-- Store exercising the conservative fall-throughs: node 0 is a
parentless `SimpleAssignmentTarget` (so its ancestor chain is too short
to inspect), node 1 a reference below it, node 2 an unrecognized parent
kind, node 3 a reference below node 2; nodes 4-6 form a full
wrapper chain (`AssignmentTarget` above `SimpleAssignmentTarget` above a
reference) whose grand-grandparent kind (node 2, `other` — e.g. a
for-in left) is neither an assignment expression nor a default target. -/
def fallThroughStore : AstNodes AstKind :=
  { root := some 0,
    nodes :=
      [ ⟨0, .simpleAssignmentTarget, 0, 0, 0⟩,
        ⟨1, .identifierReference 0, 0, 0, 0⟩,
        ⟨2, .other, 0, 0, 0⟩,
        ⟨3, .identifierReference 1, 0, 0, 0⟩,
        ⟨4, .assignmentTarget, 0, 0, 0⟩,
        ⟨5, .simpleAssignmentTarget, 0, 0, 0⟩,
        ⟨6, .identifierReference 2, 0, 0, 0⟩ ],
    parent_ids := [none, some 0, some 0, some 2, some 2, some 4, some 5] }

/-- The binding pattern of `var [{ a: [foo = () => {}] }] = []`, with
`foo` bound to symbol 5: an array pattern holding an object pattern
holding an array pattern holding the default sub-pattern. -/
def nestedPatternKind : BindingPatternKind :=
  .arrayPattern
    [some (.objectPattern
      [.arrayPattern
        [some (.assignmentPattern (.bindingIdentifier 5) .arrowFunctionExpression)]
        none]
      none)]
    none

/-- A two-call insertion sequence: the program node, then one child. -/
def programChildOps : List (Op Nat) := [.program 0 0 0 0, .node 0 0 0 0 0]

/-! ## Helper lemmas about the pattern search -/

/-- A hit of the property loop comes from one of the properties. -/
theorem findAssignInProperties_eq_some (properties : List BindingPatternKind)
    (symbol_id : Nat) (v : BindingPatternKind × Expr)
    (h : findAssignInProperties properties symbol_id = some v) :
    ∃ p ∈ properties,
      find_assign_binding_pattern_kind_of_specific_symbol p symbol_id = some v := by
  induction properties with
  | nil => simp [findAssignInProperties] at h
  | cons p rest ih =>
    simp only [findAssignInProperties] at h
    cases hf : find_assign_binding_pattern_kind_of_specific_symbol p symbol_id with
    | some w =>
      rw [hf] at h
      simp only [Option.some.injEq] at h
      exact ⟨p, by simp, by rw [hf, h]⟩
    | none =>
      rw [hf] at h
      obtain ⟨q, hq, hfq⟩ := ih h
      exact ⟨q, by simp [hq], hfq⟩

/-- A hit of the element loop comes from one of the non-elided elements. -/
theorem findAssignInElements_eq_some (elements : List (Option BindingPatternKind))
    (symbol_id : Nat) (v : BindingPatternKind × Expr)
    (h : findAssignInElements elements symbol_id = some v) :
    ∃ b, some b ∈ elements ∧
      find_assign_binding_pattern_kind_of_specific_symbol b symbol_id = some v := by
  induction elements with
  | nil => simp [findAssignInElements] at h
  | cons el rest ih =>
    cases el with
    | none =>
      simp only [findAssignInElements] at h
      obtain ⟨b, hb, hfb⟩ := ih h
      exact ⟨b, by simp [hb], hfb⟩
    | some binding =>
      simp only [findAssignInElements] at h
      cases hf : find_assign_binding_pattern_kind_of_specific_symbol binding symbol_id with
      | some w =>
        rw [hf] at h
        simp only [Option.some.injEq] at h
        exact ⟨binding, by simp, by rw [hf, h]⟩
      | none =>
        rw [hf] at h
        obtain ⟨b, hb, hfb⟩ := ih h
        exact ⟨b, by simp [hb], hfb⟩

/-- Whatever the recursive search returns, its left-hand side is the
identifier binding the searched symbol (the search only returns an
assignment sub-pattern after that check succeeded). -/
theorem find_assign_left_binds (kind : BindingPatternKind) (symbol_id : Nat)
    (left : BindingPatternKind) (e : Expr)
    (h : find_assign_binding_pattern_kind_of_specific_symbol kind symbol_id = some (left, e)) :
    is_binding_id_of_specific_symbol left symbol_id = true := by
  have main : ∀ (fuel : Nat) (kind : BindingPatternKind), sizeOf kind ≤ fuel →
      ∀ (symbol_id : Nat) (left : BindingPatternKind) (e : Expr),
        find_assign_binding_pattern_kind_of_specific_symbol kind symbol_id = some (left, e) →
        is_binding_id_of_specific_symbol left symbol_id = true := by
    intro fuel
    induction fuel with
    | zero =>
      intro kind hk
      exfalso
      cases kind <;> simp at hk
    | succ fuel ih =>
      intro kind hk symbol_id left e h
      cases kind with
      | bindingIdentifier sid =>
        simp [find_assign_binding_pattern_kind_of_specific_symbol] at h
      | objectPattern properties rest =>
        simp only [find_assign_binding_pattern_kind_of_specific_symbol] at h
        obtain ⟨p, hp, hfp⟩ := findAssignInProperties_eq_some _ _ _ h
        refine ih p ?_ symbol_id left e hfp
        have h1 : sizeOf p < sizeOf properties := List.sizeOf_lt_of_mem hp
        have h2 : sizeOf (BindingPatternKind.objectPattern properties rest)
            = 1 + sizeOf properties + sizeOf rest := by simp
        omega
      | arrayPattern elements rest =>
        simp only [find_assign_binding_pattern_kind_of_specific_symbol] at h
        obtain ⟨b, hb, hfb⟩ := findAssignInElements_eq_some _ _ _ h
        refine ih b ?_ symbol_id left e hfb
        have h1 : sizeOf (some b) < sizeOf elements := List.sizeOf_lt_of_mem hb
        have h2 : sizeOf (some b) = 1 + sizeOf b := by simp
        have h3 : sizeOf (BindingPatternKind.arrayPattern elements rest)
            = 1 + sizeOf elements + sizeOf rest := by simp
        omega
      | assignmentPattern l r =>
        simp only [find_assign_binding_pattern_kind_of_specific_symbol] at h
        by_cases hb : is_binding_id_of_specific_symbol l symbol_id = true
        · rw [if_pos hb] at h
          simp only [Option.some.injEq, Prod.mk.injEq] at h
          rw [← h.1]
          exact hb
        · rw [if_neg hb] at h
          refine ih l ?_ symbol_id left e h
          have h2 : sizeOf (BindingPatternKind.assignmentPattern l r)
              = 1 + sizeOf l + sizeOf r := by simp
          omega
  exact main (sizeOf kind) kind (le_refl _) symbol_id left e h

/-- On a destructuring pattern kind, the declaration-site test evaluates
the recursive search and checks the found default for
anonymous-definability (the plain-identifier early return is skipped). -/
theorem declare_node_destructuring_eval (id_kind : BindingPatternKind) (init : Option Expr)
    (s : Nat) (hd : isDestructuringPatternKind id_kind = true) :
    is_name_set_declare_node (.variableDeclarator id_kind init) s =
      (match find_assign_binding_pattern_kind_of_specific_symbol id_kind s with
       | some assign_pattern => is_expression_whose_name_needs_to_be_kept assign_pattern.2
       | none => false) := by
  cases id_kind with
  | bindingIdentifier _ => simp [isDestructuringPatternKind] at hd
  | assignmentPattern _ _ => simp [isDestructuringPatternKind] at hd
  | objectPattern _ _ => rfl
  | arrayPattern _ _ => rfl

/-! ## Helper lemmas about the store invariant -/

/-- `add_node` with a previously assigned parent preserves the store
invariant; it adds one node and no parentless entry. -/
theorem add_node_inv (st : AstNodes K) (k : K) (s p c f : Nat)
    (hst : StoreInv st) (hp : p < st.parent_ids.length) :
    StoreInv (st.add_node k s p c f).2
    ∧ (st.add_node k s p c f).2.nodes.length = st.nodes.length + 1
    ∧ (st.add_node k s p c f).2.parent_ids.length = st.parent_ids.length + 1
    ∧ (st.add_node k s p c f).2.parent_ids.countP Option.isNone
        = st.parent_ids.countP Option.isNone := by
  refine ⟨⟨?_, ?_, ?_⟩, ?_, ?_, ?_⟩
  · simp [AstNodes.add_node, hst.len_eq]
  · intro i nd h
    simp only [AstNodes.add_node] at h
    by_cases hi : i < st.nodes.length
    · rw [List.getElem?_append_left hi] at h
      exact hst.ids_dense i nd h
    · rw [List.getElem?_append_right (Nat.le_of_not_lt hi)] at h
      by_cases h0 : i - st.nodes.length = 0
      · rw [h0] at h
        rw [List.getElem?_cons_zero, Option.some.injEq] at h
        rw [← h]
        have : i = st.nodes.length := by omega
        rw [this, hst.len_eq]
      · rw [List.getElem?_eq_none (by simp; omega)] at h
        exact absurd h (by simp)
  · intro i q h
    simp only [AstNodes.add_node] at h
    by_cases hi : i < st.parent_ids.length
    · rw [List.getD_append _ _ _ _ hi] at h
      exact hst.parents_lt i q h
    · rw [List.getD_append_right _ _ _ _ (Nat.le_of_not_lt hi)] at h
      by_cases h0 : i - st.parent_ids.length = 0
      · rw [h0] at h
        rw [List.getD_cons_zero, Option.some.injEq] at h
        omega
      · rw [List.getD_eq_default _ _ (by simp; omega)] at h
        exact absurd h (by simp)
  · simp [AstNodes.add_node]
  · simp [AstNodes.add_node]
  · simp [AstNodes.add_node, List.countP_append]

/-- `add_program_node` preserves the store invariant; it adds one node
and exactly one parentless entry. -/
theorem add_program_node_inv (st : AstNodes K) (k : K) (s c f : Nat)
    (hst : StoreInv st) :
    StoreInv (st.add_program_node k s c f).2
    ∧ (st.add_program_node k s c f).2.nodes.length = st.nodes.length + 1
    ∧ (st.add_program_node k s c f).2.parent_ids.length = st.parent_ids.length + 1
    ∧ (st.add_program_node k s c f).2.parent_ids.countP Option.isNone
        = st.parent_ids.countP Option.isNone + 1 := by
  refine ⟨⟨?_, ?_, ?_⟩, ?_, ?_, ?_⟩
  · simp [AstNodes.add_program_node, hst.len_eq]
  · intro i nd h
    simp only [AstNodes.add_program_node] at h
    by_cases hi : i < st.nodes.length
    · rw [List.getElem?_append_left hi] at h
      exact hst.ids_dense i nd h
    · rw [List.getElem?_append_right (Nat.le_of_not_lt hi)] at h
      by_cases h0 : i - st.nodes.length = 0
      · rw [h0] at h
        rw [List.getElem?_cons_zero, Option.some.injEq] at h
        rw [← h]
        have : i = st.nodes.length := by omega
        rw [this, hst.len_eq]
      · rw [List.getElem?_eq_none (by simp; omega)] at h
        exact absurd h (by simp)
  · intro i q h
    simp only [AstNodes.add_program_node] at h
    by_cases hi : i < st.parent_ids.length
    · rw [List.getD_append _ _ _ _ hi] at h
      exact hst.parents_lt i q h
    · rw [List.getD_append_right _ _ _ _ (Nat.le_of_not_lt hi)] at h
      by_cases h0 : i - st.parent_ids.length = 0
      · rw [h0] at h
        rw [List.getD_cons_zero] at h
        exact absurd h (by simp)
      · rw [List.getD_eq_default _ _ (by simp; omega)] at h
        exact absurd h (by simp)
  · simp [AstNodes.add_program_node]
  · simp [AstNodes.add_program_node]
  · simp [AstNodes.add_program_node, List.countP_append]

/-- Running a well-formed insertion sequence preserves the invariant and
tracks the lengths and the number of parentless entries. -/
theorem runOps_inv (ops : List (Op K)) : ∀ (st : AstNodes K), StoreInv st →
    opsWF ops st.parent_ids.length = true →
    StoreInv (runOps st ops)
    ∧ (runOps st ops).nodes.length = st.nodes.length + ops.length
    ∧ (runOps st ops).parent_ids.length = st.parent_ids.length + ops.length
    ∧ (runOps st ops).parent_ids.countP Option.isNone
        = st.parent_ids.countP Option.isNone + ops.countP Op.isProgram := by
  induction ops with
  | nil => intro st hst _; simpa [runOps] using hst
  | cons op ops ih =>
    intro st hst hwf
    cases op with
    | node k s p c f =>
      rw [opsWF] at hwf
      rw [Bool.and_eq_true, decide_eq_true_eq] at hwf
      obtain ⟨hinv, hn, hpl, hcount⟩ := add_node_inv st k s p c f hst hwf.1
      have hrec := ih (st.add_node k s p c f).2 hinv (by rw [hpl]; exact hwf.2)
      rw [runOps]
      simp only [applyOp]
      refine ⟨hrec.1, ?_, ?_, ?_⟩
      · rw [hrec.2.1, hn, List.length_cons]; omega
      · rw [hrec.2.2.1, hpl, List.length_cons]; omega
      · rw [hrec.2.2.2, hcount, List.countP_cons]
        simp [Op.isProgram]
    | program k s c f =>
      rw [opsWF] at hwf
      obtain ⟨hinv, hn, hpl, hcount⟩ := add_program_node_inv st k s c f hst
      have hrec := ih (st.add_program_node k s c f).2 hinv (by rw [hpl]; exact hwf)
      rw [runOps]
      simp only [applyOp]
      refine ⟨hrec.1, ?_, ?_, ?_⟩
      · rw [hrec.2.1, hn, List.length_cons]; omega
      · rw [hrec.2.2.1, hpl, List.length_cons]; omega
      · rw [hrec.2.2.2, hcount, List.countP_cons]
        simp [Op.isProgram]
        omega

/-- In a parent array whose links strictly descend, the parent chain
from any index reaches a parentless entry. -/
theorem reaches_parentless (parent_ids : List (Option Nat))
    (hlt : ∀ i p, parent_ids.getD i none = some p → p < i) (i : Nat) :
    ∃ r, r ≤ i ∧ ParentPath parent_ids i r ∧ parent_ids.getD r none = none := by
  induction i using Nat.strong_induction_on with
  | _ i ih =>
    cases h : parent_ids.getD i none with
    | none => exact ⟨i, Nat.le_refl i, .refl i, h⟩
    | some p =>
      obtain ⟨r, hr, hpath, hnone⟩ := ih p (hlt i p h)
      exact ⟨r, Nat.le_trans hr (Nat.le_of_lt (hlt i p h)), .step h hpath, hnone⟩

/-- An in-range parentless entry is a `none` member of the array. -/
theorem none_mem_of_getD (l : List (Option Nat)) : ∀ (j : Nat), j < l.length →
    l.getD j none = none → none ∈ l := by
  induction l with
  | nil => intro j hj; simp at hj
  | cons a rest ih =>
    intro j hj h
    cases j with
    | zero => rw [List.getD_cons_zero] at h; rw [h]; simp
    | succ m =>
      rw [List.getD_cons_succ] at h
      have := ih m (by simpa using Nat.lt_of_succ_lt_succ hj) h
      simp [this]

/-- If the array holds at most one parentless entry, two in-range
parentless positions coincide. -/
theorem none_position_unique (l : List (Option Nat))
    (hc : l.countP Option.isNone ≤ 1) : ∀ i j, i < l.length → j < l.length →
    l.getD i none = none → l.getD j none = none → i = j := by
  induction l with
  | nil => intro i j hi; simp at hi
  | cons a rest ih =>
    intro i j hi hj hgi hgj
    cases i with
    | zero =>
      cases j with
      | zero => rfl
      | succ m =>
        exfalso
        rw [List.getD_cons_zero] at hgi
        rw [List.getD_cons_succ] at hgj
        have hmem := none_mem_of_getD rest m (by simpa using Nat.lt_of_succ_lt_succ hj) hgj
        have hpos : 0 < rest.countP Option.isNone :=
          List.countP_pos_iff.mpr ⟨none, hmem, rfl⟩
        have he : (a :: rest).countP Option.isNone = rest.countP Option.isNone + 1 := by
          rw [List.countP_cons]
          simp [hgi]
        omega
    | succ m =>
      cases j with
      | zero =>
        exfalso
        rw [List.getD_cons_zero] at hgj
        rw [List.getD_cons_succ] at hgi
        have hmem := none_mem_of_getD rest m (by simpa using Nat.lt_of_succ_lt_succ hi) hgi
        have hpos : 0 < rest.countP Option.isNone :=
          List.countP_pos_iff.mpr ⟨none, hmem, rfl⟩
        have he : (a :: rest).countP Option.isNone = rest.countP Option.isNone + 1 := by
          rw [List.countP_cons]
          simp [hgj]
        omega
      | succ m' =>
        have hc' : rest.countP Option.isNone ≤ 1 := by
          rw [List.countP_cons] at hc
          omega
        rw [List.getD_cons_succ] at hgi hgj
        have := ih hc' m m' (by simpa using Nat.lt_of_succ_lt_succ hi)
          (by simpa using Nat.lt_of_succ_lt_succ hj) hgi hgj
        omega

/-! ## Claim theorems -/

/-- C1: a symbol enumerated by the symbol table is in the set returned by
`collect_name_symbols` iff the declaration-site test accepts its
declaration node or at least one of its resolved references passes the
reference-site test; the evidence combines by logical OR, so a symbol
with zero references and a non-matching declaration is absent, and a
non-matching reference never cancels a match from other evidence. -/
theorem collect_name_symbols_mem_iff (scoping : Scoping) (st : AstNodes AstKind)
    (s : Nat) (hs : s ∈ scoping.symbol_ids) :
    s ∈ collect_name_symbols scoping st ↔
      (is_name_set_declare_node (st.kind (scoping.symbol_declaration s)) s = true
        ∨ ∃ r ∈ scoping.resolved_reference_ids s,
            is_name_set_reference_node st (scoping.reference_node_id r) r = true) := by
  simp [collect_name_symbols, has_name_set_reference_node, List.mem_filter, hs,
    List.any_eq_true, Bool.or_eq_true]

/-- C1 witness: for `function foo() {}` (symbol 7) the equivalence holds
at the concrete store and scoping. -/
theorem collect_name_symbols_mem_iff_witness :
    7 ∈ collect_name_symbols fnDeclScoping fnDeclStore ↔
      (is_name_set_declare_node (fnDeclStore.kind (fnDeclScoping.symbol_declaration 7)) 7 = true
        ∨ ∃ r ∈ fnDeclScoping.resolved_reference_ids 7,
            is_name_set_reference_node fnDeclStore (fnDeclScoping.reference_node_id r) r = true) :=
  collect_name_symbols_mem_iff fnDeclScoping fnDeclStore 7 (by decide)

/-- C2 counterexample: at `plusAssignStore` — the chain for
`foo += function () {}` — the reference-site test accepts the reference
through the assignment-expression shape although the operator is `+=`,
which the claim says is not among the listed shapes and must not
preserve the symbol. -/
theorem plus_assignment_accepted :
    is_name_set_reference_node plusAssignStore 4 0 = true ∧
    plusAssignStore.kind 1 = .assignmentExpression .addition
      (.assignmentTargetIdentifier 0) (.functionExpression none) :=
  ⟨rfl, rfl⟩

/-- C2 (amended): the reference-site test accepts a reference through the
assignment-expression shape iff it is the direct assignment target of an
assignment expression — with any assignment operator, the operator is
never inspected — whose right-hand side is anonymous-definable. -/
theorem assignment_shape_ignores_operator (st : AstNodes AstKind)
    (n r pid : Nat) (op : AssignOp) (left : AssignmentTarget) (right : Expr)
    (hp : st.parent_id n = some pid)
    (hk : st.kind pid = .simpleAssignmentTarget)
    (ha : ((st.ancestor_kinds pid).drop 1).take 2 =
      [.assignmentTarget, .assignmentExpression op left right]) :
    is_name_set_reference_node st n r = true ↔
      (is_assignment_target_id_of_specific_reference left r = true ∧
        right.is_anonymous_function_definition = true) := by
  simp only [is_name_set_reference_node, hp, hk, ha,
    is_expression_whose_name_needs_to_be_kept]
  simp [Bool.and_eq_true]

/-- C2 witness: the amended equivalence instantiated at the plain `=`
assignment chain `foo = function () {}`. -/
theorem assignment_shape_ignores_operator_witness :
    is_name_set_reference_node plainAssignStore 4 0 = true ↔
      (is_assignment_target_id_of_specific_reference (.assignmentTargetIdentifier 0) 0 = true ∧
        Expr.is_anonymous_function_definition (.functionExpression none) = true) :=
  assignment_shape_ignores_operator plainAssignStore 4 0 3 .assign
    (.assignmentTargetIdentifier 0) (.functionExpression none) rfl rfl rfl

/-- C3: at the well-formed two-node store (root 0, child 1) the sequence
produced by `ancestors 1` is `[1, 0]`: its first element is the queried
node itself, not its parent, and its length is the depth plus one.  This
contradicts the claim and the function's own doc comment ("the first
node produced by this iterator is the first parent"), which the
implementation — seeding the successor iterator with the node itself —
violates. -/
theorem ancestors_starts_at_self :
    twoNodeStore.ancestors 1 = [1, 0] ∧
    (twoNodeStore.ancestors 1).head? ≠ twoNodeStore.parent_id 1 ∧
    (twoNodeStore.ancestors 1).length = 2 := by
  refine ⟨rfl, ?_, rfl⟩
  decide

/-- C4: for a declarator whose binding is a destructuring pattern, the
declaration-site test preserves `s` iff the recursive structural search
of the pattern — descending through nested object and array patterns,
skipping elision holes — finds a default-value sub-pattern whose
left-hand side is the identifier binding `s` and whose default
expression is anonymous-definable (only the first hit is returned and
evaluated). -/
theorem declare_destructuring_iff (id_kind : BindingPatternKind) (init : Option Expr)
    (s : Nat) (hd : isDestructuringPatternKind id_kind = true) :
    is_name_set_declare_node (.variableDeclarator id_kind init) s = true ↔
      ∃ left e,
        find_assign_binding_pattern_kind_of_specific_symbol id_kind s = some (left, e)
        ∧ is_binding_id_of_specific_symbol left s = true
        ∧ e.is_anonymous_function_definition = true := by
  rw [declare_node_destructuring_eval id_kind init s hd]
  constructor
  · intro h
    cases hf : find_assign_binding_pattern_kind_of_specific_symbol id_kind s with
    | none => rw [hf] at h; simp at h
    | some v =>
      obtain ⟨left, e⟩ := v
      rw [hf] at h
      refine ⟨left, e, rfl, find_assign_left_binds id_kind s left e hf, ?_⟩
      simpa [is_expression_whose_name_needs_to_be_kept] using h
  · rintro ⟨left, e, hfind, _hbind, hanon⟩
    rw [hfind]
    simpa [is_expression_whose_name_needs_to_be_kept] using hanon

/-- C4 witness: the nested pattern of `var [{ a: [foo = () => {}] }] = []`
(symbol 5) satisfies the equivalence, and both sides hold there. -/
theorem declare_destructuring_iff_witness :
    (is_name_set_declare_node (.variableDeclarator nestedPatternKind (some .otherExpression)) 5
        = true ↔
      ∃ left e,
        find_assign_binding_pattern_kind_of_specific_symbol nestedPatternKind 5 = some (left, e)
        ∧ is_binding_id_of_specific_symbol left 5 = true
        ∧ e.is_anonymous_function_definition = true)
    ∧ is_name_set_declare_node
        (.variableDeclarator nestedPatternKind (some .otherExpression)) 5 = true :=
  ⟨declare_destructuring_iff nestedPatternKind (some .otherExpression) 5 rfl, rfl⟩

/-- C5: for a single-binding declarator `var s = <init>` the
declaration-site test preserves `s` iff the initializer is present and
anonymous-definable; a named function expression initializer and an
absent initializer both fail. -/
theorem declare_single_binding_iff (s : Nat) (init : Option Expr) (nm : Nat) :
    (is_name_set_declare_node (.variableDeclarator (.bindingIdentifier s) init) s = true ↔
      ∃ e, init = some e ∧ e.is_anonymous_function_definition = true)
    ∧ is_name_set_declare_node
        (.variableDeclarator (.bindingIdentifier s)
          (some (.functionExpression (some nm)))) s = false
    ∧ is_name_set_declare_node (.variableDeclarator (.bindingIdentifier s) none) s = false := by
  refine ⟨?_, ?_, ?_⟩
  · cases init with
    | none => simp [is_name_set_declare_node]
    | some e =>
      simp [is_name_set_declare_node, is_expression_whose_name_needs_to_be_kept]
  · simp [is_name_set_declare_node, is_expression_whose_name_needs_to_be_kept,
      Expr.is_anonymous_function_definition]
  · simp [is_name_set_declare_node]

/-- C7: for a function or class declaration node the declaration-site
test preserves `s` iff the node carries an identifier resolving to `s`;
a missing identifier or one resolving to a different symbol fails. -/
theorem declare_function_class_iff (s : Nat) (id : Option Nat) :
    (is_name_set_declare_node (.function id) s = true ↔ id = some s)
    ∧ (is_name_set_declare_node (.classNode id) s = true ↔ id = some s) := by
  cases id <;> simp [is_name_set_declare_node]

/-- C9: after any insertion sequence in which `add_program_node` is
called at most once and every parent id passed to `add_node` was
previously assigned, the N inserted nodes carry exactly the dense ids
0..N-1 in insertion order, at most one node has no parent (and any two
parentless positions coincide), and every node's parent chain reaches a
parentless node — the root. -/
theorem store_build_invariant (ops : List (Op K))
    (hwf : opsWF ops 0 = true) (hprog : ops.countP Op.isProgram ≤ 1) :
    (runOps AstNodes.new ops).nodes.length = ops.length
    ∧ (runOps AstNodes.new ops).parent_ids.length = ops.length
    ∧ (∀ (i : Nat) (n : AstNode K), (runOps AstNodes.new ops).nodes[i]? = some n → n.id = i)
    ∧ (runOps AstNodes.new ops).parent_ids.countP Option.isNone ≤ 1
    ∧ (∀ i j, i < ops.length → j < ops.length →
        (runOps AstNodes.new ops).parent_ids.getD i none = none →
        (runOps AstNodes.new ops).parent_ids.getD j none = none → i = j)
    ∧ (∀ i, i < ops.length →
        ∃ r, r ≤ i ∧ ParentPath (runOps AstNodes.new ops).parent_ids i r ∧
          (runOps AstNodes.new ops).parent_ids.getD r none = none) := by
  have hnew : StoreInv (K := K) AstNodes.new := by
    refine ⟨rfl, ?_, ?_⟩ <;> intro i x h <;> simp [AstNodes.new] at h
  obtain ⟨hinv, hn, hpl, hcount⟩ :=
    runOps_inv ops AstNodes.new hnew (by simpa [AstNodes.new] using hwf)
  have hn' : (runOps AstNodes.new ops).nodes.length = ops.length := by
    simpa [AstNodes.new] using hn
  have hpl' : (runOps AstNodes.new ops).parent_ids.length = ops.length := by
    simpa [AstNodes.new] using hpl
  have hcount' : (runOps AstNodes.new ops).parent_ids.countP Option.isNone
      = ops.countP Op.isProgram := by
    simpa [AstNodes.new] using hcount
  refine ⟨hn', hpl', hinv.ids_dense, ?_, ?_, ?_⟩
  · rw [hcount']; exact hprog
  · intro i j hi hj hgi hgj
    exact none_position_unique _ (by rw [hcount']; exact hprog) i j
      (by rw [hpl']; exact hi) (by rw [hpl']; exact hj) hgi hgj
  · intro i _hi
    exact reaches_parentless _ hinv.parents_lt i

/-- C9 witness: the invariant instantiated at the two-call sequence of
`programChildOps` (the program node, then one child of it). -/
theorem store_build_invariant_witness :
    (runOps AstNodes.new programChildOps).nodes.length = programChildOps.length
    ∧ (runOps AstNodes.new programChildOps).parent_ids.length = programChildOps.length
    ∧ (∀ (i : Nat) (n : AstNode Nat),
        (runOps AstNodes.new programChildOps).nodes[i]? = some n → n.id = i)
    ∧ (runOps AstNodes.new programChildOps).parent_ids.countP Option.isNone ≤ 1
    ∧ (∀ i j, i < programChildOps.length → j < programChildOps.length →
        (runOps AstNodes.new programChildOps).parent_ids.getD i none = none →
        (runOps AstNodes.new programChildOps).parent_ids.getD j none = none → i = j)
    ∧ (∀ i, i < programChildOps.length →
        ∃ r, r ≤ i ∧ ParentPath (runOps AstNodes.new programChildOps).parent_ids i r ∧
          (runOps AstNodes.new programChildOps).parent_ids.getD r none = none) :=
  store_build_invariant programChildOps (by decide) (by decide)

/-- C10: `add_program_node` is total and last-write-wins: each call
returns the next dense id, appends a parentless node, and unconditionally
overwrites the stored root, so after two calls the root is the id of the
most recent call while the node of the first call remains in the store
with no parent (its `parent_ids` entry is still `none` inside the
appended prefix). -/
theorem add_program_node_last_write_wins (st : AstNodes K) (k1 : K) (s1 c1 f1 : Nat)
    (k2 : K) (s2 c2 f2 : Nat) :
    (st.add_program_node k1 s1 c1 f1).1 = st.parent_ids.length
    ∧ (st.add_program_node k1 s1 c1 f1).2.root = some (st.add_program_node k1 s1 c1 f1).1
    ∧ (st.add_program_node k1 s1 c1 f1).2.parent_ids = st.parent_ids ++ [none]
    ∧ (st.add_program_node k1 s1 c1 f1).2.nodes
        = st.nodes ++ [⟨st.parent_ids.length, k1, s1, c1, f1⟩]
    ∧ ((st.add_program_node k1 s1 c1 f1).2.add_program_node k2 s2 c2 f2).1
        = st.parent_ids.length + 1
    ∧ ((st.add_program_node k1 s1 c1 f1).2.add_program_node k2 s2 c2 f2).2.root
        = some (st.parent_ids.length + 1)
    ∧ ((st.add_program_node k1 s1 c1 f1).2.add_program_node k2 s2 c2 f2).2.parent_ids
        = (st.parent_ids ++ [none]) ++ [none]
    ∧ ((st.add_program_node k1 s1 c1 f1).2.add_program_node k2 s2 c2 f2).2.nodes
        = (st.nodes ++ [⟨st.parent_ids.length, k1, s1, c1, f1⟩])
          ++ [⟨st.parent_ids.length + 1, k2, s2, c2, f2⟩] := by
  simp [AstNodes.add_program_node]

/-- C6: the reference-site test accepts a reference through the
destructuring-assignment shapes iff the reference is the bound identifier
of a default-valued assignment target — either below an
`AssignmentTargetWithDefault` (`[s = <expr>] = ...`) or as a shorthand
property of an `ObjectAssignmentTarget` (`({ s = <expr> } = ...)`) —
whose default expression is anonymous-definable. -/
theorem reference_destructuring_default_iff (st : AstNodes AstKind) (n r pid : Nat)
    (hp : st.parent_id n = some pid) :
    (∀ (binding : AssignmentTarget) (init : Expr),
        st.kind pid = .simpleAssignmentTarget →
        ((st.ancestor_kinds pid).drop 1).take 2 =
          [.assignmentTarget, .assignmentTargetWithDefault binding init] →
        (is_name_set_reference_node st n r = true ↔
          (is_assignment_target_id_of_specific_reference binding r = true ∧
            init.is_anonymous_function_definition = true)))
    ∧ (∀ properties, st.kind pid = .objectAssignmentTarget properties →
        (is_name_set_reference_node st n r = true ↔
          ∃ e, (AssignmentTargetProperty.assignmentTargetPropertyIdentifier r (some e))
              ∈ properties ∧ e.is_anonymous_function_definition = true)) := by
  constructor
  · intro binding init hk ha
    simp only [is_name_set_reference_node, hp, hk, ha,
      is_expression_whose_name_needs_to_be_kept]
    simp [Bool.and_eq_true]
  · intro properties hk
    simp only [is_name_set_reference_node, hp, hk, List.any_eq_true]
    constructor
    · rintro ⟨property, hmem, hpred⟩
      cases property with
      | assignmentTargetPropertyProperty => simp at hpred
      | assignmentTargetPropertyIdentifier b i =>
        rcases hb : b == r with _ | _
        · simp [hb] at hpred
        · have hbr : b = r := by simpa using hb
          cases i with
          | none => simp [hb] at hpred
          | some e =>
            refine ⟨e, ?_, ?_⟩
            · rw [← hbr]; exact hmem
            · simpa [hb, is_expression_whose_name_needs_to_be_kept] using hpred
    · rintro ⟨e, hmem, hanon⟩
      refine ⟨.assignmentTargetPropertyIdentifier r (some e), hmem, ?_⟩
      simp [is_expression_whose_name_needs_to_be_kept, hanon]

/-- C6 witness: the two destructuring-assignment equivalences
instantiated at the stores for `[foo = class {}] = []` and
`({ foo = function () {} } = {})`. -/
theorem reference_destructuring_default_iff_witness :
    (is_name_set_reference_node defaultTargetStore 4 1 = true ↔
      (is_assignment_target_id_of_specific_reference (.assignmentTargetIdentifier 1) 1 = true ∧
        Expr.is_anonymous_function_definition (.classExpression none) = true))
    ∧ (is_name_set_reference_node objTargetStore 2 2 = true ↔
      ∃ e, (AssignmentTargetProperty.assignmentTargetPropertyIdentifier 2 (some e))
          ∈ [AssignmentTargetProperty.assignmentTargetPropertyProperty,
             AssignmentTargetProperty.assignmentTargetPropertyIdentifier 2
               (some (.functionExpression none))]
        ∧ e.is_anonymous_function_definition = true) :=
  ⟨(reference_destructuring_default_iff defaultTargetStore 4 1 3 rfl).1
      (.assignmentTargetIdentifier 1) (.classExpression none) rfl rfl,
   (reference_destructuring_default_iff objTargetStore 2 2 1 rfl).2 _ rfl⟩

/-- C8: every fall-through of the classification functions yields the
conservative answer "not preserved": an unrecognized declaration node
kind, a reference node with no parent, an unrecognized reference parent
kind, an ancestor chain too short to inspect, and a full ancestor tuple
whose grand-grandparent kind is neither an assignment expression nor a
default-valued assignment target all make the classifiers return
`false` (the functions are total). -/
theorem analyzer_total_conservative (st : AstNodes AstKind) (k : AstKind)
    (sid n r pid : Nat) :
    (is_declare_shape k = false → is_name_set_declare_node k sid = false)
    ∧ (st.parent_id n = none → is_name_set_reference_node st n r = false)
    ∧ (st.parent_id n = some pid → is_reference_parent_shape (st.kind pid) = false →
        is_name_set_reference_node st n r = false)
    ∧ (st.parent_id n = some pid → st.kind pid = .simpleAssignmentTarget →
        ((st.ancestor_kinds pid).drop 1).length < 2 →
        is_name_set_reference_node st n r = false)
    ∧ (∀ gpk ggpk, st.parent_id n = some pid →
        st.kind pid = .simpleAssignmentTarget →
        ((st.ancestor_kinds pid).drop 1).take 2 = [gpk, ggpk] →
        is_assignment_container_shape ggpk = false →
        is_name_set_reference_node st n r = false) := by
  refine ⟨?_, ?_, ?_, ?_, ?_⟩
  · intro hk
    cases k <;> simp_all [is_declare_shape, is_name_set_declare_node]
  · intro hnone
    simp [is_name_set_reference_node, hnone]
  · intro hsome hshape
    simp only [is_name_set_reference_node, hsome]
    cases hk : st.kind pid <;> rw [hk] at hshape <;>
      simp [is_reference_parent_shape] at hshape ⊢
  · intro hsome hk hlen
    simp only [is_name_set_reference_node, hsome, hk]
    rcases hl : (st.ancestor_kinds pid).drop 1 with _ | ⟨a, _ | ⟨b, rest⟩⟩ <;>
      rw [hl] at hlen <;> simp_all <;> omega
  · intro gpk ggpk hsome hk ha hshape
    simp only [is_name_set_reference_node, hsome, hk, ha]
    cases ggpk <;> simp_all [is_assignment_container_shape]

/-- C8 witness: each fall-through instantiated at `fallThroughStore`,
the last one at reference node 6 whose grand-grandparent (node 2) has an
unrecognized kind although the ancestor tuple is full. -/
theorem analyzer_total_conservative_witness :
    is_name_set_declare_node .other 0 = false
    ∧ is_name_set_reference_node fallThroughStore 0 0 = false
    ∧ is_name_set_reference_node fallThroughStore 3 0 = false
    ∧ is_name_set_reference_node fallThroughStore 1 0 = false
    ∧ is_name_set_reference_node fallThroughStore 6 2 = false :=
  ⟨(analyzer_total_conservative fallThroughStore .other 0 0 0 0).1 rfl,
   (analyzer_total_conservative fallThroughStore .other 0 0 0 0).2.1 rfl,
   (analyzer_total_conservative fallThroughStore .other 0 3 0 2).2.2.1 rfl rfl,
   (analyzer_total_conservative fallThroughStore .other 0 1 0 0).2.2.2.1 rfl rfl (by decide),
   (analyzer_total_conservative fallThroughStore .other 0 6 2 5).2.2.2.2
     .assignmentTarget .other rfl rfl rfl rfl⟩

end Oxc
